import Mathlib

/-!
Shallow embedding of the blockchain event-subscription core
(`package blockchain`: `Event`, `eventElem`, `eventStream`, `subscription`).

Pointers into mutable heap objects (`*types.Header`, `*big.Int`) are modelled
as indices into explicit heaps, so that aliasing and copy-on-insert are
observable.  The intrusive linked list of `eventElem` nodes is modelled as an
arena (`List eventElem`) with `next` links given by arena indices; `nil`
pointers are `Option.none`.  The per-subscriber unbuffered wake channels are
modelled by an abstract channel state with a non-blocking `trySend`, and the
stream operations are atomic state transformers (the source serializes them
under one mutex).
-/

namespace Blockchain

/-- The blockchain event type (`EventType` in the source). -/
inductive EventType where
  | EventHead
  | EventReorg
  | EventFork
deriving DecidableEq, Inhabited

/-- A `*types.Header` pointer: an index into a `HeaderHeap`. -/
abbrev HeaderRef := Nat

/-- A `*big.Int` pointer: an index into a `BigHeap`. -/
abbrev BigRef := Nat

/-- Modelled from the spec: `types.Header` is outside the provided sources; the
spec treats it as an opaque value type, "copyable; treated as opaque beyond
field-wise copy", so its content is one abstract field. -/
structure Header where
  val : Nat
deriving DecidableEq, Inhabited

/-- The heap of header objects; a `HeaderRef` dereferences into it. -/
structure HeaderHeap where
  headers : List Header
deriving DecidableEq

/-- Dereference a header pointer. -/
def HeaderHeap.read (hp : HeaderHeap) (r : HeaderRef) : Header :=
  hp.headers.getD r default

/-- Modelled from the spec: `newHeader.Copy()` of the external `types` package;
"each header appended to oldChain/newChain is deep-copied at insertion time".
Allocates a fresh object holding the current value of `r`. -/
def HeaderHeap.copy (hp : HeaderHeap) (r : HeaderRef) : HeaderHeap × HeaderRef :=
  (⟨hp.headers ++ [hp.read r]⟩, hp.headers.length)

/-- In-place mutation of the header object at `r` (the caller mutating the
object its own pointer refers to). -/
def HeaderHeap.write (hp : HeaderHeap) (r : HeaderRef) (v : Header) : HeaderHeap :=
  ⟨hp.headers.set r v⟩

/-- The heap of `big.Int` objects. -/
structure BigHeap where
  ints : List Int
deriving DecidableEq

/-- Dereference a `*big.Int`. -/
def BigHeap.read (bh : BigHeap) (r : BigRef) : Int :=
  bh.ints.getD r 0

/-- In-place mutation of the `big.Int` object at `r`. -/
def BigHeap.write (bh : BigHeap) (r : BigRef) (v : Int) : BigHeap :=
  ⟨bh.ints.set r v⟩

/-- The blockchain event passed to listeners (`Event` in the source).  The Go
slices `OldChain`/`NewChain` are `[]*types.Header`: `none` is a nil slice,
`some l` a slice of header pointers.  `Difficulty` is a possibly-nil
`*big.Int`.  The Go field `Type` is spelled `Type'` here. -/
structure Event where
  OldChain : Option (List HeaderRef) := none
  NewChain : Option (List HeaderRef) := none
  Difficulty : Option BigRef := none
  Type' : EventType := .EventHead
  Source : String := ""
deriving DecidableEq, Inhabited

/-- `Event.Header`: `return e.NewChain[len(e.NewChain)-1]`.  Indexing a nil or
empty slice at `len-1` panics in Go; that panic is the `none` result.  `len`
of a nil slice is `0`, hence the `Option.getD []`. -/
def Event.Header (e : Event) : Option HeaderRef :=
  (e.NewChain.getD []).getLast?

/-- `Event.SetDifficulty`: `e.Difficulty = new(big.Int).Set(b)` — allocate a
fresh `big.Int`, copy `b`'s current value into it, and store the fresh
pointer. -/
def Event.SetDifficulty (bh : BigHeap) (e : Event) (b : BigRef) : BigHeap × Event :=
  (⟨bh.ints ++ [bh.read b]⟩, { e with Difficulty := some bh.ints.length })

/-- `Event.AddNewHeader`: deep-copy the header, lazily allocate the slice if it
is nil, append the copy's pointer. -/
def Event.AddNewHeader (hp : HeaderHeap) (e : Event) (newHeader : HeaderRef) :
    HeaderHeap × Event :=
  let hc := hp.copy newHeader
  let chain := match e.NewChain with
    | none => ([] : List HeaderRef)
    | some c => c
  (hc.1, { e with NewChain := some (chain ++ [hc.2]) })

/-- `Event.AddOldHeader`: same as `AddNewHeader` but for `OldChain`. -/
def Event.AddOldHeader (hp : HeaderHeap) (e : Event) (oldHeader : HeaderRef) :
    HeaderHeap × Event :=
  let hc := hp.copy oldHeader
  let chain := match e.OldChain with
    | none => ([] : List HeaderRef)
    | some c => c
  (hc.1, { e with OldChain := some (chain ++ [hc.2]) })

/-- State of one subscriber's unbuffered wake channel (`chan void`), as seen by
the writer's non-blocking send: `idle` — no receiver is parked on it;
`recvWaiting` — the subscriber is parked in its `select`; `signalled` — a wake
was already handed over and the subscriber has not parked again yet. -/
inductive ChanState where
  | idle
  | recvWaiting
  | signalled
deriving DecidableEq, Inhabited

/-- The writer's non-blocking notify, `select case update <- void: default:` on
an unbuffered channel: it hands the wake over exactly when a receiver is
parked, and otherwise falls into `default`, dropping the notify. -/
def trySend : ChanState → ChanState
  | .recvWaiting => .signalled
  | c => c

/-- `eventElem`: one node of the intrusive event list; `next` is a `nil`-able
pointer to the successor node, as an arena index. -/
structure eventElem where
  event : Event
  next : Option Nat
deriving DecidableEq, Inhabited

/-- `eventStream`: the arena holds every `eventElem` ever allocated (node `i`
is the `i`-th object created by `push`); `head` is the Go `head` pointer (the
most recently pushed node, i.e. the tail of the list); `updateCh` is the
registered wake-channel slice.  The mutex is not modelled: operations are
atomic steps. -/
structure eventStream where
  arena : List eventElem
  head : Option Nat
  updateCh : List ChanState
deriving DecidableEq

/-- A stream with no event ever pushed and no subscriber. -/
def emptyStream : eventStream := ⟨[], none, []⟩

/-- `subscription`: `elem` is the subscriber's position pointer (`nil`-able),
`updateIdx` records which entry of the stream's `updateCh` slice is its wake
channel, `closeCh` is `true` once the close channel has been closed. -/
structure subscription where
  elem : Option Nat
  updateIdx : Nat
  closeCh : Bool
deriving DecidableEq, Inhabited

/-- `eventStream.Head`: under the lock, snapshot the head pointer, make a fresh
wake channel, append it to `updateCh` (the `nil`-slice check in the source is
the identity here) and return both.  Returns ((head snapshot, index of the new
channel), updated stream). -/
def eventStream.Head (e : eventStream) : (Option Nat × Nat) × eventStream :=
  ((e.head, e.updateCh.length), { e with updateCh := e.updateCh ++ [.idle] })

/-- `eventStream.subscribe`: position the new subscription at the snapshot
head, with a fresh wake channel and an open close channel. -/
def eventStream.subscribe (e : eventStream) : subscription × eventStream :=
  let h := e.Head
  ({ elem := h.1.1, updateIdx := h.1.2, closeCh := false }, h.2)

/-- `eventStream.push`: allocate a new `eventElem` wrapping `event` (fresh
arena index); if a head exists, write its `next` to the new node; make the new
node the head; try a non-blocking notify on every registered wake channel. -/
def eventStream.push (e : eventStream) (event : Event) : eventStream :=
  let newIdx := e.arena.length
  let newHead : eventElem := { event := event, next := none }
  let arena' :=
    (match e.head with
     | some h => e.arena.set h { e.arena.getD h default with next := some newIdx }
     | none => e.arena) ++ [newHead]
  { arena := arena', head := some newIdx, updateCh := e.updateCh.map trySend }

/-- A sequence of `push` calls, in order. -/
def eventStream.pushes (e : eventStream) (evs : List Event) : eventStream :=
  evs.foldl eventStream.push e

/-- Outcome of one `subscription.GetEvent` call in the sequential model:
`got ev s` — returned event `ev`, subscription advanced to `s`;
`blocked` — no pending next node and not closed: the call parks in `select`;
`eos` — the close channel is closed and nothing is pending: returns `nil`
(end of stream); `nilDeref` — `s.elem` is a nil pointer and `s.elem.next`
panics. -/
inductive GetEventResult where
  | got : Event → subscription → GetEventResult
  | blocked
  | eos
  | nilDeref
deriving DecidableEq, Inhabited

/-- `subscription.GetEvent` (blocking pull): if `s.elem.next != nil`, advance
and return its event; otherwise wait for a wake (re-checking on wake — in the
atomic model a re-check with an unchanged arena is the same state, so the loop
collapses) or for close, which returns `nil`. -/
def subscription.GetEvent (arena : List eventElem) (s : subscription) :
    GetEventResult :=
  match s.elem with
  | none => .nilDeref
  | some i =>
    match (arena.getD i default).next with
    | some j => .got (arena.getD j default).event { s with elem := some j }
    | none => if s.closeCh then .eos else .blocked

/-- `subscription.Close`: `close(s.closeCh)`.  Closing an already-closed Go
channel is a fatal runtime panic: that panic is the `none` result. -/
def subscription.Close (s : subscription) : Option subscription :=
  if s.closeCh then none else some { s with closeCh := true }

/-- Repeatedly call `GetEvent` (up to `fuel` calls), collecting the returned
events until a call does not return one. -/
def observe : Nat → List eventElem → subscription → List Event
  | 0, _, _ => []
  | Nat.succ k, arena, s =>
    match s.GetEvent arena with
    | .got ev s' => ev :: observe k arena s'
    | _ => []

/-- The arena reached by pushing `evs` into an empty stream: node `i` wraps
`evs[i]` and links to node `i+1`, the last node's link being nil. -/
def linkArena (evs : List Event) : List eventElem :=
  (List.range evs.length).map fun i =>
    { event := evs.getD i default,
      next := if i + 1 < evs.length then some (i + 1) else none }

/-- The head pointer after pushing `evs` into an empty stream. -/
def tailIdx (evs : List Event) : Option Nat :=
  if evs.length = 0 then none else some (evs.length - 1)

/-! ### Helper lemmas -/

theorem getD_eq_getElem {α : Type _} (l : List α) (i : Nat) (d : α)
    (h : i < l.length) : l.getD i d = l[i] := by
  rw [List.getD_eq_getElem?_getD, List.getElem?_eq_getElem h]
  rfl

theorem getD_append_left {α : Type _} (l₁ l₂ : List α) (i : Nat) (d : α)
    (h : i < l₁.length) : (l₁ ++ l₂).getD i d = l₁.getD i d := by
  have h' : i < (l₁ ++ l₂).length := by simp; omega
  rw [getD_eq_getElem _ _ _ h', getD_eq_getElem _ _ _ h]
  exact List.getElem_append_left h

theorem getD_concat_length {α : Type _} (l : List α) (a : α) (d : α) :
    (l ++ [a]).getD l.length d = a := by
  rw [List.getD_eq_getElem?_getD, List.getElem?_concat_length]
  rfl

theorem getD_set_self {α : Type _} (l : List α) (i : Nat) (a d : α)
    (h : i < l.length) : (l.set i a).getD i d = a := by
  rw [getD_eq_getElem _ _ _ (by simpa using h)]
  exact List.getElem_set_self (by simpa using h)

theorem getD_set_ne {α : Type _} (l : List α) (i j : Nat) (a d : α)
    (hne : i ≠ j) : (l.set i a).getD j d = l.getD j d := by
  rw [List.getD_eq_getElem?_getD, List.getD_eq_getElem?_getD,
    List.getElem?_set_ne hne]

theorem linkArena_length (evs : List Event) :
    (linkArena evs).length = evs.length := by
  simp [linkArena]

theorem linkArena_getElem? (evs : List Event) (i : Nat) (h : i < evs.length) :
    (linkArena evs)[i]? =
      some { event := evs.getD i default,
             next := if i + 1 < evs.length then some (i + 1) else none } := by
  simp [linkArena, List.getElem?_map, List.getElem?_range h]

theorem linkArena_getD (evs : List Event) (i : Nat) (d : eventElem)
    (h : i < evs.length) :
    (linkArena evs).getD i d =
      { event := evs.getD i default,
        next := if i + 1 < evs.length then some (i + 1) else none } := by
  rw [List.getD_eq_getElem?_getD, linkArena_getElem? evs i h]
  rfl

/-- One `push` on a stream whose list is `linkArena evs` extends it to
`linkArena (evs ++ [f])` and moves the head pointer to the new node. -/
theorem push_step (st : eventStream) (evs : List Event) (f : Event)
    (ha : st.arena = linkArena evs) (hh : st.head = tailIdx evs) :
    (st.push f).arena = linkArena (evs ++ [f]) ∧
      (st.push f).head = some evs.length := by
  have hlen : st.arena.length = evs.length := by rw [ha, linkArena_length]
  by_cases h0 : evs.length = 0
  · have hnil : evs = [] := List.length_eq_zero.mp h0
    subst hnil
    have ha' : st.arena = [] := by simpa [linkArena] using ha
    have hh' : st.head = none := by simpa [tailIdx] using hh
    refine ⟨?_, ?_⟩
    · show (st.push f).arena = linkArena [f]
      simp [eventStream.push, ha', hh', linkArena, List.range_succ]
    · simp [eventStream.push, ha']
  · obtain ⟨ar, hd, uc⟩ := st
    simp only at ha hh hlen
    have hpos : 0 < evs.length := Nat.pos_of_ne_zero h0
    have hh' : hd = some (evs.length - 1) := by
      rw [hh]; simp [tailIdx, h0]
    subst hh'
    have hold : ar.getD (evs.length - 1) default =
        { event := evs.getD (evs.length - 1) default, next := none } := by
      rw [ha, linkArena_getD evs (evs.length - 1) default (by omega)]
      have hnot : ¬(evs.length - 1 + 1 < evs.length) := by omega
      simp [hnot]
    have harena :
        (eventStream.push ⟨ar, some (evs.length - 1), uc⟩ f).arena =
          ar.set (evs.length - 1)
            { event := evs.getD (evs.length - 1) default,
              next := some evs.length } ++
            [{ event := f, next := none }] := by
      show ar.set (evs.length - 1)
          { ar.getD (evs.length - 1) default with next := some ar.length } ++
          [{ event := f, next := none }] = _
      rw [hold, hlen]
    have hlen1 : (ar.set (evs.length - 1)
        { event := evs.getD (evs.length - 1) default,
          next := some evs.length }).length = evs.length := by
      rw [List.length_set, hlen]
    refine ⟨?_, by simp [eventStream.push, hlen]⟩
    rw [harena]
    apply List.ext_getElem
    · rw [List.length_append, hlen1, linkArena_length, List.length_append]
      rfl
    · intro i h1 h2
      have hi : i < evs.length + 1 := by
        rw [linkArena_length, List.length_append] at h2
        simpa using h2
      rw [← getD_eq_getElem _ _ default h1, ← getD_eq_getElem _ _ default h2]
      rw [linkArena_getD (evs ++ [f]) i default
        (by rw [List.length_append]; simpa using hi)]
      by_cases hin : i < evs.length
      · rw [getD_append_left _ _ _ _ (by rw [hlen1]; exact hin)]
        have he1 : (evs ++ [f]).getD i default = evs.getD i default :=
          getD_append_left evs [f] i default hin
        rw [he1]
        by_cases hlast : i = evs.length - 1
        · subst hlast
          rw [getD_set_self _ _ _ _ (by omega)]
          have hsucc : evs.length - 1 + 1 = evs.length := by omega
          rw [hsucc]
          have he2 : evs.length < (evs ++ [f]).length := by simp
          rw [if_pos he2]
        · rw [getD_set_ne _ _ _ _ _ (by omega)]
          rw [ha, linkArena_getD evs i default hin]
          have he2 : i + 1 < evs.length := by omega
          have he3 : i + 1 < (evs ++ [f]).length := by simp; omega
          rw [if_pos he2, if_pos he3]
      · have hie : i = evs.length := by omega
        subst hie
        have hL : (ar.set (evs.length - 1)
            { event := evs.getD (evs.length - 1) default,
              next := some evs.length } ++
            [eventElem.mk f none]).getD evs.length default =
            eventElem.mk f none := by
          have hx := getD_concat_length
            (ar.set (evs.length - 1)
              { event := evs.getD (evs.length - 1) default,
                next := some evs.length })
            (eventElem.mk f none) default
          rwa [hlen1] at hx
        rw [hL]
        have he1 : (evs ++ [f]).getD evs.length default = f :=
          getD_concat_length evs f default
        rw [he1]
        have he2 : ¬(evs.length + 1 < (evs ++ [f]).length) := by simp
        rw [if_neg he2]

/-- Pushing `fs` onto any stream whose list is `linkArena evs` yields
`linkArena (evs ++ fs)`. -/
theorem pushes_core (fs : List Event) (st : eventStream) (evs : List Event)
    (ha : st.arena = linkArena evs) (hh : st.head = tailIdx evs) :
    (st.pushes fs).arena = linkArena (evs ++ fs) ∧
      (st.pushes fs).head = tailIdx (evs ++ fs) := by
  induction fs generalizing st evs with
  | nil =>
    simp only [eventStream.pushes, List.foldl_nil, List.append_nil]
    exact ⟨ha, hh⟩
  | cons f fs ih =>
    have hstep := push_step st evs f ha hh
    have hh' : (st.push f).head = tailIdx (evs ++ [f]) := by
      rw [hstep.2]; simp [tailIdx]
    have hrec := ih (st.push f) (evs ++ [f]) hstep.1 hh'
    have hfold : st.pushes (f :: fs) = (st.push f).pushes fs := rfl
    rw [hfold]
    simpa using hrec

/-- Walking a `linkArena` from node `i` returns the events after position
`i`, in order. -/
theorem observe_walk (k : Nat) (evs : List Event) (i ui : Nat)
    (h : i < evs.length) :
    observe k (linkArena evs) ⟨some i, ui, false⟩ =
      (evs.drop (i + 1)).take k := by
  induction k generalizing i with
  | zero => simp [observe]
  | succ k ih =>
    by_cases h2 : i + 1 < evs.length
    · have hget : subscription.GetEvent (linkArena evs) ⟨some i, ui, false⟩ =
          .got (evs.getD (i + 1) default) ⟨some (i + 1), ui, false⟩ := by
        simp [subscription.GetEvent, linkArena_getElem? evs i h,
          linkArena_getElem? evs (i + 1) h2, h2]
      rw [observe, hget, List.drop_eq_getElem_cons h2, List.take_succ_cons,
        ← getD_eq_getElem evs (i + 1) default h2, ← ih (i + 1) h2]
    · have hget : subscription.GetEvent (linkArena evs) ⟨some i, ui, false⟩ =
          .blocked := by
        simp [subscription.GetEvent, linkArena_getElem? evs i h, h2]
      have hd : evs.drop (i + 1) = [] := List.drop_eq_nil_of_le (by omega)
      rw [observe, hget, hd]
      rfl

/-- `GetEvent` on a nil position always panics, so nothing is observed. -/
theorem observe_none (k : Nat) (arena : List eventElem) (ui : Nat) (c : Bool) :
    observe k arena ⟨none, ui, c⟩ = [] := by
  cases k <;> simp [observe, subscription.GetEvent]

/-- The full run behind C1/C4: push `es`, subscribe, push `fs`, then read the
cursor `k` times: nothing is observed when `es` is empty (the position is
nil), and otherwise exactly the first `k` of `fs`. -/
theorem run_observe (es fs : List Event) (k : Nat) :
    observe k
      (((eventStream.pushes emptyStream es).subscribe.2).pushes fs).arena
      ((eventStream.pushes emptyStream es).subscribe).1 =
      if es.isEmpty then [] else fs.take k := by
  have h0 := pushes_core es emptyStream [] rfl rfl
  have ha0 : (eventStream.pushes emptyStream es).arena = linkArena es := by
    simpa using h0.1
  have hh0 : (eventStream.pushes emptyStream es).head = tailIdx es := by
    simpa using h0.2
  have hsub : ((eventStream.pushes emptyStream es).subscribe).1 =
      ⟨(eventStream.pushes emptyStream es).head,
        (eventStream.pushes emptyStream es).updateCh.length, false⟩ := rfl
  have h2 := pushes_core fs ((eventStream.pushes emptyStream es).subscribe).2 es
    (by simpa [eventStream.subscribe, eventStream.Head] using ha0)
    (by simpa [eventStream.subscribe, eventStream.Head] using hh0)
  rw [h2.1, hsub, hh0]
  cases hes : es.isEmpty with
  | true =>
    have hnil : es = [] := List.isEmpty_iff.mp (by simp [hes])
    have ht : tailIdx es = none := by simp [tailIdx, hnil]
    rw [ht]
    simp [observe_none]
  | false =>
    have hne : es ≠ [] := by
      intro hc; rw [hc] at hes; simp at hes
    have hlen : 0 < es.length := List.length_pos.mpr hne
    have hlz : es.length ≠ 0 := by omega
    have ht : tailIdx es = some (es.length - 1) := by simp [tailIdx, hlz]
    rw [ht]
    rw [observe_walk k (es ++ fs) (es.length - 1)
      ((eventStream.pushes emptyStream es).updateCh.length) (by simp; omega)]
    have hsucc : es.length - 1 + 1 = es.length := by omega
    rw [hsucc, List.drop_left]
    rfl

/-! ### Sample events for concrete instances -/

/-- A sample new-head event. -/
def evHead : Event := {}

/-- A sample reorg event. -/
def evReorg : Event := { Type' := .EventReorg }

/-- A sample fork event. -/
def evFork : Event := { Type' := .EventFork }

/-! ### Claims -/

/-- C1, counterexample: on a stream into which nothing was ever pushed,
a cursor created by `subscribe()` before 1 push does not observe that one
event — its position is nil and `GetEvent` panics, so it observes nothing. -/
theorem c1_empty_log_counterexample :
    observe 1 ((eventStream.subscribe emptyStream).2.push evReorg).arena
      (eventStream.subscribe emptyStream).1 ≠ [evReorg] := by
  decide

/-- C1 (amended): for every N ≥ 0, a cursor created by `subscribe()` on a
stream into which at least one event has already been pushed, before N
subsequent `push` calls, observes exactly those N events, in push order, each
exactly once: reading the cursor k times yields the first k of the N pushed
events (so k = N yields all of them and further reads add nothing). -/
theorem c1_cursor_sees_pushes (es fs : List Event) (k : Nat) (hes : es ≠ []) :
    observe k
      (((eventStream.pushes emptyStream es).subscribe.2).pushes fs).arena
      ((eventStream.pushes emptyStream es).subscribe).1 = fs.take k := by
  rw [run_observe]
  simp [hes]

/-- C1 witness: after one pre-subscribe push, a cursor reading twice sees the
two post-subscribe events in push order. -/
theorem c1_cursor_sees_pushes_witness :
    observe 2
      (((eventStream.pushes emptyStream [evHead]).subscribe.2).pushes
        [evReorg, evFork]).arena
      ((eventStream.pushes emptyStream [evHead]).subscribe).1 =
      [evReorg, evFork] := by
  simpa using c1_cursor_sees_pushes [evHead] [evReorg, evFork] 2 (by simp)

/-- C2, counterexample: push; subscribe; push; close.  The entry pushed
before the close is still unconsumed, and `GetEvent` returns it — not
end-of-stream — because the position's next link is checked before the close
signal. -/
theorem c2_pending_entry_counterexample :
    subscription.GetEvent
      ((eventStream.push
        (eventStream.subscribe (eventStream.push emptyStream evHead)).2
        evReorg).arena)
      ((subscription.Close
        (eventStream.subscribe (eventStream.push emptyStream evHead)).1).getD
          default) ≠ GetEventResult.eos := by
  decide

/-- C2 (amended): after `close()`, `getEvent()` returns end-of-stream
immediately on every call made while the cursor has no pending unconsumed
entry (its position's next link is nil), and keeps doing so; entries pushed
before the close but not yet consumed are still returned first. -/
theorem c2_closed_no_pending_eos (arena : List eventElem) (s : subscription)
    (i : Nat) (he : s.elem = some i) (hc : s.closeCh = true)
    (hn : (arena.getD i default).next = none) :
    s.GetEvent arena = GetEventResult.eos := by
  obtain ⟨el, ui, cl⟩ := s
  have he' : el = some i := he
  have hc' : cl = true := hc
  subst he'
  subst hc'
  have hn' : (arena[i]?.getD default).next = none := by
    rw [← List.getD_eq_getElem?_getD]
    exact hn
  simp [subscription.GetEvent, hn']

/-- C2 witness: a closed cursor positioned at the last entry gets
end-of-stream. -/
theorem c2_closed_no_pending_eos_witness :
    subscription.GetEvent [eventElem.mk evHead none] ⟨some 0, 0, true⟩ =
      GetEventResult.eos :=
  c2_closed_no_pending_eos [eventElem.mk evHead none] ⟨some 0, 0, true⟩ 0
    rfl rfl rfl

/-- C3: subscribing to a stream into which no event has ever been pushed
yields a subscription whose position is nil, and every `GetEvent` call on it
(whatever the arena has become by then) dereferences the nil position — a
crash — instead of blocking until the next push. -/
theorem c3_empty_stream_nil_deref :
    ((eventStream.subscribe emptyStream).1).elem = none ∧
    ∀ arena : List eventElem,
      subscription.GetEvent arena (eventStream.subscribe emptyStream).1 =
        GetEventResult.nilDeref :=
  ⟨rfl, fun _ => rfl⟩

/-- C4: a cursor never observes an event pushed strictly before its
`subscribe()` call: whatever was pushed before (`es`) and after (`fs`) the
subscribe, any sequence of reads returns a prefix of `fs` only (and nothing
at all when the pre-subscribe log was empty). -/
theorem c4_only_post_subscribe_events (es fs : List Event) (k : Nat) :
    observe k
      (((eventStream.pushes emptyStream es).subscribe.2).pushes fs).arena
      ((eventStream.pushes emptyStream es).subscribe).1 =
      if es.isEmpty then [] else fs.take k :=
  run_observe es fs k

/-- C5: `addNewHeader(h)` then `header()` returns a header deep-equal to `h`
but a different object reference (copy-on-insert), and mutating the caller's
`h` afterwards does not change the stored header. -/
theorem c5_add_new_header_copy (hp : HeaderHeap) (e : Event) (r : HeaderRef)
    (v : Header) (hr : r < hp.headers.length) :
    (Event.AddNewHeader hp e r).2.Header = some hp.headers.length ∧
    hp.headers.length ≠ r ∧
    (Event.AddNewHeader hp e r).1.read hp.headers.length = hp.read r ∧
    ((Event.AddNewHeader hp e r).1.write r v).read hp.headers.length =
      hp.read r := by
  refine ⟨?_, Nat.ne_of_gt hr, ?_, ?_⟩
  · cases hNC : e.NewChain with
    | none =>
      simp [Event.AddNewHeader, Event.Header, hNC, HeaderHeap.copy,
        List.getLast?_concat]
    | some c =>
      simp [Event.AddNewHeader, Event.Header, hNC, HeaderHeap.copy,
        List.getLast?_concat]
  · exact getD_concat_length _ _ _
  · show ((hp.headers ++ [hp.read r]).set r v).getD hp.headers.length default =
      hp.read r
    rw [getD_set_ne _ _ _ _ _ (Nat.ne_of_lt hr)]
    exact getD_concat_length _ _ _

/-- C5 witness: inserting the header object ⟨5⟩ stored at reference 0 yields a
stored copy at the fresh reference 1 with the same value, unaffected by later
mutation of reference 0. -/
theorem c5_add_new_header_copy_witness :
    (Event.AddNewHeader ⟨[⟨5⟩]⟩ {} 0).2.Header = some 1 ∧
    (1 : Nat) ≠ 0 ∧
    (Event.AddNewHeader ⟨[⟨5⟩]⟩ {} 0).1.read 1 = HeaderHeap.read ⟨[⟨5⟩]⟩ 0 ∧
    ((Event.AddNewHeader ⟨[⟨5⟩]⟩ {} 0).1.write 0 ⟨9⟩).read 1 =
      HeaderHeap.read ⟨[⟨5⟩]⟩ 0 :=
  c5_add_new_header_copy ⟨[⟨5⟩]⟩ {} 0 ⟨9⟩ (by decide)

/-- C6: pushing into an empty stream builds exactly the singly linked list in
push order (`linkArena`); one more push keeps every existing entry's event
unchanged, and an existing entry's forward link either stays what it was or
transitions from nil to the entry created by the immediately following push. -/
theorem c6_entries_write_once (evs : List Event) (f : Event) :
    (eventStream.pushes emptyStream evs).arena = linkArena evs ∧
    ((eventStream.pushes emptyStream evs).push f).arena =
      linkArena (evs ++ [f]) ∧
    (∀ i, i < evs.length →
      (((eventStream.pushes emptyStream evs).push f).arena.getD i
          default).event =
        ((eventStream.pushes emptyStream evs).arena.getD i default).event) ∧
    (∀ i, i < evs.length →
      (((eventStream.pushes emptyStream evs).push f).arena.getD i
          default).next =
          ((eventStream.pushes emptyStream evs).arena.getD i default).next ∨
        (((eventStream.pushes emptyStream evs).arena.getD i default).next =
            none ∧
          (((eventStream.pushes emptyStream evs).push f).arena.getD i
              default).next = some evs.length)) := by
  have h0 := pushes_core evs emptyStream [] rfl rfl
  have ha : (eventStream.pushes emptyStream evs).arena = linkArena evs := by
    simpa using h0.1
  have hh : (eventStream.pushes emptyStream evs).head = tailIdx evs := by
    simpa using h0.2
  have hstep := push_step (eventStream.pushes emptyStream evs) evs f ha hh
  refine ⟨ha, hstep.1, ?_, ?_⟩
  · intro i hi
    rw [ha, hstep.1, linkArena_getD evs i default hi,
      linkArena_getD (evs ++ [f]) i default (by simp; omega),
      getD_append_left evs [f] i default hi]
  · intro i hi
    rw [ha, hstep.1, linkArena_getD evs i default hi,
      linkArena_getD (evs ++ [f]) i default (by simp; omega)]
    by_cases h2 : i + 1 < evs.length
    · left
      have h3 : i + 1 < (evs ++ [f]).length := by simp; omega
      rw [if_pos h2, if_pos h3]
    · right
      have h3 : i + 1 < (evs ++ [f]).length := by simp; omega
      have h4 : i + 1 = evs.length := by omega
      rw [if_neg h2, if_pos h3, h4]
      exact ⟨rfl, rfl⟩

/-- C6 witness: after pushing one event and then a second, entry 0 keeps its
event and its forward link went from nil to entry 1. -/
theorem c6_entries_write_once_witness :
    (((eventStream.pushes emptyStream [evHead]).push evReorg).arena.getD 0
        default).event =
      ((eventStream.pushes emptyStream [evHead]).arena.getD 0 default).event ∧
    ((((eventStream.pushes emptyStream [evHead]).push evReorg).arena.getD 0
          default).next =
        ((eventStream.pushes emptyStream [evHead]).arena.getD 0 default).next ∨
      (((eventStream.pushes emptyStream [evHead]).arena.getD 0 default).next =
          none ∧
        (((eventStream.pushes emptyStream [evHead]).push evReorg).arena.getD 0
            default).next = some 1)) :=
  ⟨(c6_entries_write_once [evHead] evReorg).2.2.1 0 (by decide),
   (c6_entries_write_once [evHead] evReorg).2.2.2 0 (by decide)⟩

/-- C7: `push(event)` allocates a new entry wrapping the event with an absent
forward link (at the fresh arena index); if a head already exists its forward
link is set to the new entry; the new entry becomes the head; and every
currently registered wake channel gets exactly one non-blocking notify
attempt, which delivers when a receiver is parked and is silently dropped
otherwise — `push` is a total function of the state, never blocked by any
subscriber. -/
theorem c7_push_contract (st : eventStream) (ev : Event) (h : Nat) :
    (st.push ev).arena.getD st.arena.length default = eventElem.mk ev none ∧
    (st.head = some h → h < st.arena.length →
      (st.push ev).arena.getD h default =
        eventElem.mk (st.arena.getD h default).event
          (some st.arena.length)) ∧
    (st.push ev).head = some st.arena.length ∧
    (st.push ev).updateCh = st.updateCh.map trySend ∧
    trySend ChanState.recvWaiting = ChanState.signalled ∧
    trySend ChanState.idle = ChanState.idle ∧
    trySend ChanState.signalled = ChanState.signalled := by
  obtain ⟨ar, hd, uc⟩ := st
  refine ⟨?_, ?_, rfl, rfl, rfl, rfl, rfl⟩
  · cases hd with
    | none => exact getD_concat_length ar (eventElem.mk ev none) default
    | some j =>
      have hx := getD_concat_length
        (ar.set j { ar.getD j default with next := some ar.length })
        (eventElem.mk ev none) default
      rwa [List.length_set] at hx
  · intro hhd hlt
    cases hd with
    | none => simp at hhd
    | some j =>
      have hj : j = h := by simpa using hhd
      subst hj
      have h1 : (eventStream.push ⟨ar, some j, uc⟩ ev).arena =
          ar.set j { ar.getD j default with next := some ar.length } ++
            [eventElem.mk ev none] := rfl
      rw [h1, getD_append_left _ _ _ _ (by rw [List.length_set]; exact hlt),
        getD_set_self _ _ _ _ hlt]

/-- C7 witness: on a one-entry stream with head 0, a push writes entry 0's
link to the new entry 1, which wraps the pushed event with no link. -/
theorem c7_push_contract_witness :
    ((eventStream.pushes emptyStream [evHead]).push evReorg).arena.getD 1
        default = eventElem.mk evReorg none ∧
    ((eventStream.pushes emptyStream [evHead]).push evReorg).arena.getD 0
        default =
      eventElem.mk
        ((eventStream.pushes emptyStream [evHead]).arena.getD 0 default).event
        (some 1) :=
  ⟨(c7_push_contract (eventStream.pushes emptyStream [evHead]) evReorg 0).1,
   (c7_push_contract (eventStream.pushes emptyStream [evHead]) evReorg 0).2.1
     rfl (by decide)⟩

/-- C8: a single `close()` on a not-yet-closed cursor succeeds, marking it
closed; calling `close()` a second time closes the close channel twice,
which is the fatal Go runtime panic (the `none` outcome). -/
theorem c8_close_once_then_fatal (s : subscription) (h : s.closeCh = false) :
    subscription.Close s = some { s with closeCh := true } ∧
    (subscription.Close s).bind subscription.Close = none := by
  obtain ⟨el, ui, cl⟩ := s
  have h' : cl = false := h
  subst h'
  simp [subscription.Close]

/-- C8 witness: closing a fresh cursor succeeds once and is fatal twice. -/
theorem c8_close_once_then_fatal_witness :
    subscription.Close ⟨none, 0, false⟩ = some ⟨none, 0, true⟩ ∧
    (subscription.Close ⟨none, 0, false⟩).bind subscription.Close = none :=
  c8_close_once_then_fatal ⟨none, 0, false⟩ rfl

/-- C9: when `newChain` is non-empty, `header()` returns its last element;
when it is empty (or a nil slice), the index `len-1` is out of bounds and the
access panics (the `none` outcome) — under the non-emptiness precondition the
error branch is unreachable. -/
theorem c9_header_last (e : Event) :
    (∀ hne : e.NewChain.getD [] ≠ [],
      e.Header = some ((e.NewChain.getD []).getLast hne)) ∧
    (e.NewChain.getD [] = [] → e.Header = none) := by
  constructor
  · intro hne
    exact List.getLast?_eq_getLast _ hne
  · intro hnil
    simp [Event.Header, hnil]

/-- C9 witness: the header of a two-element newChain is its last element, and
the empty-chain access panics. -/
theorem c9_header_last_witness :
    Event.Header { NewChain := some [3, 7] } = some 7 ∧
    Event.Header {} = none :=
  ⟨((c9_header_last { NewChain := some [3, 7] }).1 (by decide)).trans rfl,
   (c9_header_last {}).2 rfl⟩

/-- C10: `setDifficulty(d)` stores, at a fresh reference, a numerically equal
but independent copy of `d`: mutating the caller's `d` afterwards does not
change the stored difficulty. -/
theorem c10_set_difficulty_copy (bh : BigHeap) (e : Event) (b : BigRef)
    (v : Int) (hb : b < bh.ints.length) :
    (Event.SetDifficulty bh e b).2.Difficulty = some bh.ints.length ∧
    (Event.SetDifficulty bh e b).1.read bh.ints.length = bh.read b ∧
    bh.ints.length ≠ b ∧
    ((Event.SetDifficulty bh e b).1.write b v).read bh.ints.length =
      bh.read b := by
  refine ⟨rfl, ?_, Nat.ne_of_gt hb, ?_⟩
  · exact getD_concat_length _ _ _
  · show ((bh.ints ++ [bh.read b]).set b v).getD bh.ints.length 0 = bh.read b
    rw [getD_set_ne _ _ _ _ _ (Nat.ne_of_lt hb)]
    exact getD_concat_length _ _ _

/-- C10 witness: setting difficulty from the big integer 5 at reference 0
stores 5 at the fresh reference 1, unaffected by later mutation of
reference 0. -/
theorem c10_set_difficulty_copy_witness :
    (Event.SetDifficulty ⟨[(5 : Int)]⟩ {} 0).2.Difficulty = some 1 ∧
    (Event.SetDifficulty ⟨[(5 : Int)]⟩ {} 0).1.read 1 =
      BigHeap.read ⟨[(5 : Int)]⟩ 0 ∧
    (1 : Nat) ≠ 0 ∧
    ((Event.SetDifficulty ⟨[(5 : Int)]⟩ {} 0).1.write 0 9).read 1 =
      BigHeap.read ⟨[(5 : Int)]⟩ 0 :=
  c10_set_difficulty_copy ⟨[(5 : Int)]⟩ {} 0 9 (by decide)

end Blockchain
